import Mathlib

/-!
Verification development for the surfing-bros-mcp repository.

The Go sources are shallowly embedded:
* `internal/protocol/protocol.go` — the `Command`/`Response` wire envelope and
  its JSON encoding (struct tags `omitempty` on `sessionId`/`tabId`,
  `json.RawMessage` payload semantics).
* `internal/page/reducer.go` — the page reduction pipeline (`Reduce`,
  `parseHTML`'s traversal, selector synthesis, action derivation).  The
  external parser `golang.org/x/net/html` is represented by taking the parsed
  node tree directly: the `html` field of a raw page is modelled as the list
  of children of the parsed document node (`none` models `HTML == ""`).
* `internal/wsbridge` (src/unnamed/part_006) — the bridge: session registry,
  correlation table (`pending` map), `SendCommand`, `deliver`.  Concurrency is
  modelled at the granularity of the mutex-protected map operations: the
  read-loop / deadline events acting on the correlation table form an event
  trace folded over the table state.
* `internal/browser` (src/unnamed/part_005) — the target router
  (`WithTarget` / `TargetFromContext`); a Go context is projected to the only
  datum these functions consult, the optional attached `Target`.

Go strings are modelled as Lean `String` (rune sequences); byte-length
truncation (`s[:n]`) is modelled as `take n` on the character list.
-/

namespace SurfingBros

/-! ### Character / string helpers (strings.TrimSpace, strings.Fields, …) -/

/-- Model of `unicode.IsSpace` restricted to the ASCII whitespace that the
repository's inputs use. -/
def goIsSpace (c : Char) : Bool :=
  c = ' ' || c = '\t' || c = '\n' || c = '\x0b' || c = '\x0c' || c = '\r'

/-- `strings.TrimSpace` on a character list. -/
def trimL (cs : List Char) : List Char :=
  ((cs.dropWhile goIsSpace).reverse.dropWhile goIsSpace).reverse

/-- `strings.TrimSpace` on a string. -/
def trimS (s : String) : String := String.mk (trimL s.data)

/-- Accumulator worker for `strings.Fields`. -/
def wordsAux : List Char → List Char → List (List Char)
  | [], acc => if acc = [] then [] else [acc.reverse]
  | c :: cs, acc =>
    if goIsSpace c then
      (if acc = [] then wordsAux cs [] else acc.reverse :: wordsAux cs [])
    else
      wordsAux cs (c :: acc)

/-- `strings.Fields`: maximal runs of non-whitespace characters. -/
def wordsL (cs : List Char) : List (List Char) := wordsAux cs []

/-- `strings.Join(words, " ")` on character lists. -/
def joinWords : List (List Char) → List Char
  | [] => []
  | [w] => w
  | w :: ws => w ++ ' ' :: joinWords ws

/-- `compactWhitespace` from reducer.go: collapse whitespace runs to single
spaces (`strings.Join(strings.Fields(input), " ")`). -/
def compactWhitespace (s : String) : String :=
  String.mk (joinWords (wordsL s.data))

/-- Byte-slice truncation `s[:n]` (modelled at character granularity). -/
def takeS (s : String) (n : Nat) : String := String.mk (s.data.take n)

/-- `strings.ToLower` (character-wise lowering; the repository only lowers
ASCII tag/attribute names). -/
def lowerS (s : String) : String := String.mk (s.data.map Char.toLower)

/-- `true` iff the character list has no two consecutive space characters. -/
def noDoubleSpace : List Char → Bool
  | a :: b :: rest => !(a = ' ' && b = ' ') && noDoubleSpace (b :: rest)
  | _ => true

/-! ### JSON value model (for `encoding/json` round-trips) -/

/-- A JSON value, used to model `encoding/json` wire forms and
`json.RawMessage` payloads. -/
inductive JVal where
  | jnull
  | jbool (b : Bool)
  | jnum (n : Int)
  | jstr (s : String)
  | jarr (xs : List JVal)
  | jobj (fields : List (String × JVal))
deriving Repr

/-! ### internal/protocol: the wire envelope -/

/-- `protocol.Command`.  `payload` is a `json.RawMessage`: `none` models the
nil raw message, `some v` models raw bytes holding the JSON value `v` (so
`some .jnull` is the non-nil raw message `"null"`). -/
structure Command where
  id : String
  type : String
  sessionID : String
  tabID : Int
  payload : Option JVal
deriving Repr

/-- `protocol.Response` (`data` is a `json.RawMessage`, same convention as
`Command.payload`). -/
structure Response where
  id : String
  ok : Bool
  error : String
  errorCode : String
  data : Option JVal
deriving Repr

/-- `json.Marshal` on `protocol.Command` following its struct tags:
`sessionId`/`tabId` carry `omitempty` (dropped at their zero values), `id`,
`type` and `payload` are always emitted; a nil raw message marshals to JSON
`null`. -/
def serializeCommand (c : Command) : List (String × JVal) :=
  [("id", .jstr c.id), ("type", .jstr c.type)]
    ++ (if c.sessionID = "" then [] else [("sessionId", .jstr c.sessionID)])
    ++ (if c.tabID = 0 then [] else [("tabId", .jnum c.tabID)])
    ++ [("payload", match c.payload with | none => .jnull | some v => v)]

/-- Field lookup in a JSON object. -/
def jLookup (fields : List (String × JVal)) (key : String) : Option JVal :=
  (fields.find? (fun f => f.1 = key)).map (fun f => f.2)

/-- Coerce a JSON value to the string a Go `string` field would receive
(zero value when the key is missing). -/
def jAsStr : Option JVal → String
  | some (.jstr s) => s
  | _ => ""

/-- Coerce a JSON value to the integer a Go `int` field would receive. -/
def jAsInt : Option JVal → Int
  | some (.jnum n) => n
  | _ => 0

/-- `json.Unmarshal` into `protocol.Command`: absent keys leave the zero
value; a present `payload` key (even JSON `null`) is copied verbatim into the
raw message, so the field becomes non-nil (`some v`). -/
def parseCommand (fields : List (String × JVal)) : Command :=
  { id := jAsStr (jLookup fields "id")
    type := jAsStr (jLookup fields "type")
    sessionID := jAsStr (jLookup fields "sessionId")
    tabID := jAsInt (jLookup fields "tabId")
    payload := jLookup fields "payload" }

/-! ### Response handling in the browser client (src/unnamed/part_005) -/

/-- The `!resp.OK` branch of `Client.sendActionWithData`
(part_005 lines 450–461). -/
def checkActionResponse (resp : Response) : Except String Response :=
  if resp.ok then .ok resp
  else if resp.error = "" && resp.errorCode = "" then .error "browser action failed"
  else if resp.error = "" then .error ("browser action failed (" ++ resp.errorCode ++ ")")
  else if resp.errorCode != "" then .error (resp.error ++ " (" ++ resp.errorCode ++ ")")
  else .error resp.error

/-- The `!resp.OK` branch of `Client.Snapshot` (part_005 lines 104–106):
`errors.New(resp.Error)`, which ignores `errorCode`. -/
def checkSnapshotResponse (resp : Response) : Except String Response :=
  if resp.ok then .ok resp else .error resp.error

/-! ### internal/browser: target router -/

/-- `browser.Target`. -/
structure Target where
  sessionID : String
  tabID : Int
deriving Repr, DecidableEq

/-- A Go `context.Context` projected to the only datum `WithTarget` /
`TargetFromContext` consult: the innermost value stored under `targetKey`. -/
def Ctx := Option Target

/-- `browser.WithTarget`: attach the target only when at least one field is
non-zero, otherwise return the context unchanged. -/
def WithTarget (ctx : Ctx) (t : Target) : Ctx :=
  if t.sessionID = "" && t.tabID = 0 then ctx else some t

/-- `browser.TargetFromContext`: the stored target and whether one was
found. -/
def TargetFromContext (ctx : Ctx) : Target × Bool :=
  match ctx with
  | none => (⟨"", 0⟩, false)
  | some t => (t, true)

/-! ### internal/page: data model -/

/-- `page.Element`. -/
structure Element where
  tag : String := ""
  text : String := ""
  selector : String := ""
  href : String := ""
  inputType : String := ""
  name : String := ""
  id : String := ""
  ariaLabel : String := ""
  title : String := ""
  alt : String := ""
  value : String := ""
  placeholder : String := ""
  context : String := ""
deriving Repr, DecidableEq

/-- `page.Action`. -/
structure Action where
  verb : String
  selector : String
  label : String := ""
  hint : String := ""
deriving Repr, DecidableEq

/-- `page.Snapshot`. -/
structure Snapshot where
  id : String
  url : String
  title : String
  text : String
  elements : List Element
  actions : List Action
deriving Repr, DecidableEq

/-! ### internal/page: parsed HTML trees

`golang.org/x/net/html` nodes.  `HNode.elem` is an `ElementNode` (tag,
attributes, children), `HNode.text` a `TextNode`; an `HForest` is a child
list.  The document node returned by `html.Parse` is represented by the
forest of its children (it is neither an element nor a text node, so
`parseHTML`'s walk only ever recurses through it). -/
mutual
inductive HNode where
  | elem (tag : String) (attrs : List (String × String)) (children : HForest)
  | text (s : String)
inductive HForest where
  | nil
  | cons (head : HNode) (tail : HForest)
end

/-- Build a forest from a list of nodes. -/
def HForest.ofList : List HNode → HForest
  | [] => .nil
  | n :: ns => .cons n (HForest.ofList ns)

/-- `attr` from reducer.go: first attribute whose key matches under
`strings.EqualFold`, else `""`. -/
def attr (attrs : List (String × String)) (key : String) : String :=
  match attrs.find? (fun a => lowerS a.1 = lowerS key) with
  | some a => a.2
  | none => ""

/-- `isActionable` from reducer.go. -/
def isActionable (tag : String) (attrs : List (String × String)) : Bool :=
  if tag = "a" || tag = "button" || tag = "input" || tag = "select" || tag = "textarea" then
    true
  else if tag = "div" || tag = "span" then
    attr attrs "role" = "button" || attr attrs "role" = "link"
  else
    false

/-- Append one text-node payload to a text buffer the way the walk does:
trim it and, when non-empty, write it followed by a single space. -/
def appendWord (buf : List Char) (s : String) : List Char :=
  let t := trimL s.data
  if t = [] then buf else buf ++ t ++ [' ']

mutual
/-- The buffer-accumulation of `nodeText`'s inner walk on one node. -/
def nodeTextAcc : HNode → List Char → List Char
  | .text s, buf => appendWord buf s
  | .elem _ _ cs, buf => forestTextAcc cs buf
termination_by structural n => n
/-- The buffer-accumulation of `nodeText`'s inner walk on a child list. -/
def forestTextAcc : HForest → List Char → List Char
  | .nil, buf => buf
  | .cons h t, buf => forestTextAcc t (nodeTextAcc h buf)
termination_by structural f => f
end

/-- `nodeText` from reducer.go applied to an element node with the given
children: collect trimmed text nodes (space-joined), then trim the result. -/
def nodeTextOf (children : HForest) : String :=
  String.mk (trimL (forestTextAcc children []))

/-- Sibling scan of `contextText`: text nodes of the parent's children,
skipping the node itself (identified by its position `idx`). -/
def contextAcc : HForest → Nat → Nat → List Char → List Char
  | .nil, _, _, buf => buf
  | .cons h t, j, idx, buf =>
    let buf' :=
      if j = idx then buf
      else match h with
        | .text s => appendWord buf s
        | .elem _ _ _ => buf
    contextAcc t (j + 1) idx buf'

/-- `contextText(n, limit)` from reducer.go, for the node at position `idx`
among the sibling forest `sibs`. -/
def contextText (sibs : HForest) (idx : Nat) (limit : Nat) : String :=
  let ctx := trimL (contextAcc sibs 0 idx [])
  String.mk (if 0 < limit then ctx.take limit else ctx)

/-- `nthChildIndex` from reducer.go: 1-based position of the node (at
position `idx` in `sibs`) among its element-node siblings; 0 when it is not
an element node or not found. -/
def nthChildAux : HForest → Nat → Nat → Nat → Nat
  | .nil, _, _, _ => 0
  | .cons h t, j, idx, cnt =>
    match h with
    | .elem _ _ _ => if j = idx then cnt + 1 else nthChildAux t (j + 1) idx (cnt + 1)
    | .text _ => if j = idx then 0 else nthChildAux t (j + 1) idx cnt

/-- `nthChildIndex` entry point. -/
def nthChildIndex (sibs : HForest) (idx : Nat) : Nat :=
  nthChildAux sibs 0 idx 0

/-- `itoa` from reducer.go (decimal digits of a non-negative integer). -/
def itoa (i : Nat) : String := toString i

/-- `firstDataAttr` from reducer.go. -/
def firstDataAttr (attrs : List (String × String)) : List String → Option (String × String)
  | [] => none
  | key :: keys =>
    if attr attrs key ≠ "" then some (key, attr attrs key) else firstDataAttr attrs keys

/-- `selectorFromNode` from reducer.go: precedence id, data-testid, data-*
fallbacks, name, aria-label, tag.firstClass, tag:nth-child(i), ancestor tag
path, bare tag. -/
def selectorFromNode (tag : String) (attrs : List (String × String))
    (sibs : HForest) (idx : Nat) (path : List String) : String :=
  if attr attrs "id" ≠ "" then "#" ++ attr attrs "id"
  else if attr attrs "data-testid" ≠ "" then
    tag ++ "[data-testid=\"" ++ attr attrs "data-testid" ++ "\"]"
  else
    match firstDataAttr attrs ["data-test", "data-qa", "data-automation", "data-cy", "data-automation-id"] with
    | some kv => tag ++ "[" ++ kv.1 ++ "=\"" ++ kv.2 ++ "\"]"
    | none =>
      if attr attrs "name" ≠ "" then tag ++ "[name=\"" ++ attr attrs "name" ++ "\"]"
      else if attr attrs "aria-label" ≠ "" then
        tag ++ "[aria-label=\"" ++ attr attrs "aria-label" ++ "\"]"
      else
        match wordsL (attr attrs "class").data with
        | first :: _ => tag ++ "." ++ String.mk first
        | [] =>
          let index := nthChildIndex sibs idx
          if 0 < index then tag ++ ":nth-child(" ++ itoa index ++ ")"
          else if path ≠ [] then String.intercalate " > " path
          else tag

/-- `elementFromNode` from reducer.go (the node is given by its lowered tag,
attributes and children, plus its sibling forest and position for
`contextText`/`nthChildIndex`). -/
def elementFromNode (tag : String) (attrs : List (String × String)) (children : HForest)
    (sibs : HForest) (idx : Nat) (path : List String) : Element :=
  { tag := tag
    text := nodeTextOf children
    selector := selectorFromNode tag attrs sibs idx path
    href := attr attrs "href"
    inputType := attr attrs "type"
    name := attr attrs "name"
    id := attr attrs "id"
    ariaLabel := attr attrs "aria-label"
    title := attr attrs "title"
    alt := attr attrs "alt"
    value := attr attrs "value"
    placeholder := attr attrs "placeholder"
    context := contextText sibs idx 80 }

/-- The walk's retention rule: keep the element only if text, aria-label,
name or id is non-empty (`el.Text != "" || el.ARIALabel != "" || el.Name != ""
|| el.ID != ""`). -/
def retainedEl (el : Element) : Bool :=
  el.text ≠ "" || el.ariaLabel ≠ "" || el.name ≠ "" || el.id ≠ ""

mutual
/-- `parseHTML`'s walk on one node: collect the node's element (when
actionable and retained), then walk its children under the element bound. -/
def walkNode (maxE : Nat) (n : HNode) (sibs : HForest) (idx : Nat)
    (path : List String) (st : List Element × List Char) : List Element × List Char :=
  match n with
  | .text s => (st.1, appendWord st.2 s)
  | .elem tag attrs cs =>
    let tagL := lowerS tag
    let path' := path ++ [tagL]
    let st' :=
      if isActionable tagL attrs then
        let el := elementFromNode tagL attrs cs sibs idx path'
        if retainedEl el then (st.1 ++ [el], st.2) else st
      else st
    walkKids maxE cs cs 0 path' st'
termination_by structural n
/-- `parseHTML`'s child loop: before each child, stop entirely once
`maxElements` elements have been collected. -/
def walkKids (maxE : Nat) (rem : HForest) (sibs : HForest) (idx : Nat)
    (path : List String) (st : List Element × List Char) : List Element × List Char :=
  match rem with
  | .nil => st
  | .cons c cs =>
    if 0 < maxE && maxE ≤ st.1.length then st
    else walkKids maxE cs sibs (idx + 1) path (walkNode maxE c sibs idx path st)
termination_by structural rem
end

/-- `parseHTML` from reducer.go applied to the already-parsed document: walk
the document's children, returning the page text buffer and the collected
elements. -/
def parseHTMLF (doc : HForest) (maxElements : Nat) : String × List Element :=
  let st := walkKids maxElements doc doc 0 [] ([], [])
  (String.mk st.2, st.1)

/-- `actionVerb` from reducer.go. -/
def actionVerb (el : Element) : String :=
  if el.tag = "a" then "open"
  else if el.tag = "button" then "click"
  else if el.tag = "input" then
    let t := lowerS el.inputType
    if t = "submit" || t = "button" then "click"
    else if t = "checkbox" then "toggle"
    else if t = "radio" then "select"
    else "type"
  else if el.tag = "select" then "select"
  else if el.tag = "textarea" then "type"
  else if el.tag = "div" || el.tag = "span" then "click"
  else ""

/-- `actionLabel` from reducer.go: first candidate with non-blank trimmed
value, returned trimmed. -/
def firstNonBlank : List String → String
  | [] => ""
  | v :: vs => if trimS v = "" then firstNonBlank vs else trimS v

/-- `actionLabel` entry point. -/
def actionLabel (el : Element) : String :=
  firstNonBlank [trimS el.text, el.ariaLabel, el.title, el.alt, el.value, el.placeholder,
    el.name, el.context]

/-- `actionHint` from reducer.go. -/
def actionHint (el : Element) : String :=
  if el.href ≠ "" then "href=" ++ el.href
  else if el.inputType ≠ "" then "type=" ++ el.inputType
  else if el.name ≠ "" then "name=" ++ el.name
  else ""

/-- `buildActions` from reducer.go: one action per element with a non-empty
verb and selector (empty input yields the nil slice). -/
def buildActions (els : List Element) : List Action :=
  els.foldr
    (fun el acc =>
      if actionVerb el = "" || el.selector = "" then acc
      else { verb := actionVerb el, selector := el.selector, label := actionLabel el,
             hint := actionHint el } :: acc)
    []

/-- `page.RawPage`; `html = none` models `HTML == ""`, `some doc` a non-empty
HTML string whose parse tree has document children `doc` (`html.Parse` on a
string reader never fails, so the `stripHTML` error branch is dead). -/
structure RawPage where
  url : String := ""
  title : String := ""
  text : String := ""
  html : Option HForest := none
  elements : List Element := []

/-- `Reducer.Reduce` from reducer.go with bounds `maxText`/`maxElements`
(`NewReducer` guarantees both are positive, defaulting to 4000/80). -/
def reduce (maxText maxElements : Nat) (raw : RawPage) : Snapshot :=
  let text0 := trimS raw.text
  let pair :=
    match raw.html with
    | some doc =>
      let parsed := parseHTMLF doc maxElements
      (if text0 = "" then parsed.1 else text0,
       if raw.elements = [] then parsed.2 else [])
    | none => (text0, [])
  let els := if pair.2 = [] then raw.elements else pair.2
  let text := takeS (compactWhitespace pair.1) maxText
  let els := els.take maxElements
  { id := "", url := raw.url, title := raw.title, text := text,
    elements := els, actions := buildActions els }

/-! ### Actionable / retained element counts (for the bound claims) -/

mutual
/-- Number of nodes in a subtree passing `isActionable` (the spec's
"actionable elements" of a raw page). -/
def countActionableN : HNode → Nat
  | .text _ => 0
  | .elem tag attrs cs =>
    (if isActionable (lowerS tag) attrs then 1 else 0) + countActionableF cs
termination_by structural n => n
/-- Actionable-node count over a forest. -/
def countActionableF : HForest → Nat
  | .nil => 0
  | .cons h t => countActionableN h + countActionableF t
termination_by structural f => f
end

mutual
/-- Number of nodes in a subtree that the walk actually keeps: actionable
and passing the retention rule (non-empty text, aria-label, name or id).
The retention fields of `elementFromNode` do not depend on siblings,
position or path. -/
def countRetainedN : HNode → Nat
  | .text _ => 0
  | .elem tag attrs cs =>
    (if isActionable (lowerS tag) attrs
        && retainedEl (elementFromNode (lowerS tag) attrs cs .nil 0 []) then 1 else 0)
      + countRetainedF cs
termination_by structural n => n
/-- Retained-node count over a forest. -/
def countRetainedF : HForest → Nat
  | .nil => 0
  | .cons h t => countRetainedN h + countRetainedF t
termination_by structural f => f
end

/-! ### internal/wsbridge: session registry (src/unnamed/part_006) -/

/-- The registry slice of `wsbridge.Bridge`: the keys of the `sessions` map
(kept in connection order — Go map iteration order is unspecified, and the
claims proved below do not depend on which surviving key the reassignment
loop ends on) and the `activeID` pointer. -/
structure BridgeState where
  sessions : List String
  activeID : String
deriving Repr, DecidableEq

/-- `NewBridge`: empty session map, empty active id. -/
def newBridge : BridgeState := { sessions := [], activeID := "" }

/-- The connect half of `HandleWS`: insert the fresh session id, make it
active (last-connected-wins). -/
def connect (b : BridgeState) (id : String) : BridgeState :=
  { sessions := b.sessions ++ [id], activeID := id }

/-- The `for sid := range b.sessions` reassignment loop of `HandleWS`:
`activeID` starts at `""` and is assigned every remaining key in turn, so it
ends on the final key of the iteration (modelled by the list order), or stays
`""` for an empty map. -/
def pickNewActive (ss : List String) : String :=
  match ss.getLast? with
  | some sid => sid
  | none => ""

/-- The disconnect half of `HandleWS`: delete the session; if it was active,
reassign `activeID` among the survivors (or clear it). -/
def disconnect (b : BridgeState) (id : String) : BridgeState :=
  let ss := b.sessions.erase id
  if b.activeID = id then { sessions := ss, activeID := pickNewActive ss }
  else { sessions := ss, activeID := b.activeID }

/-- `Bridge.activeSession`: look up `sessions[activeID]`, `ErrNoActiveSession`
(modelled as `none`) when absent. -/
def activeSession (b : BridgeState) : Option String :=
  if b.activeID ∈ b.sessions then some b.activeID else none

/-- `Bridge.sessionByID`: explicit id when non-empty, else the active
session; `none` models `ErrNoActiveSession`. -/
def sessionByID (b : BridgeState) (id : String) : Option String :=
  if id = "" then activeSession b
  else if id ∈ b.sessions then some id else none

/-- Bridge states reachable through `HandleWS`: fresh non-empty uuids on
connect (`uuid.New().String()` is unique and non-empty), arbitrary
disconnects. -/
inductive Reachable : BridgeState → Prop where
  | init : Reachable newBridge
  | conn {b : BridgeState} {id : String} : Reachable b → id ∉ b.sessions → id ≠ "" →
      Reachable (connect b id)
  | disc {b : BridgeState} (id : String) : Reachable b → Reachable (disconnect b id)

/-! ### internal/wsbridge: correlation table and SendCommand -/

/-- `ErrNoActiveSession`. -/
def errNoActiveSession : String := "no active browser session"

/-- Externally visible transport-level steps of one `SendCommand` call. -/
inductive WireEffect where
  | registerSlot (id : String)
  | write (sid : String)
  | removeSlot (id : String)
deriving Repr, DecidableEq

/-- `Bridge.SendCommand` (part_006 lines 392–429) as a function of the
registry state and the two external outcomes it awaits: whether the
transport write succeeds (`writeOk`) and whether a correlated response
reaches the slot before the caller's deadline (`reply`).  The second
component lists the transport/correlation-table operations performed, in
order. -/
def sendCommand (b : BridgeState) (cmd : Command) (writeOk : Bool)
    (reply : Option Response) : Except String Response × List WireEffect :=
  match sessionByID b cmd.sessionID with
  | none => (.error errNoActiveSession, [])
  | some sid =>
    if writeOk then
      match reply with
      | some resp => (.ok resp, [.registerSlot cmd.id, .write sid])
      | none =>
        (.error "context deadline exceeded",
         [.registerSlot cmd.id, .write sid, .removeSlot cmd.id])
    else
      (.error "write failed", [.registerSlot cmd.id, .write sid, .removeSlot cmd.id])

/-- `Bridge.deliver` (part_006 lines 319–331) acting on the key set of the
`pending` map: atomically look up and remove the slot; the flag reports
whether a waiting caller received the response (`ch != nil`), `false` when
the id is unknown (late, duplicate or unsolicited — dropped). -/
def deliver (pending : List String) (respID : String) : List String × Bool :=
  if respID ∈ pending then (pending.erase respID, true) else (pending, false)

/-- Events acting on the correlation table while a call is in flight: the
read loop handing a response to `deliver`, or a caller's deadline firing
(the `ctx.Done()` branch of `SendCommand`, which deletes the slot). -/
inductive BridgeEv where
  | respFrame (id : String)
  | deadline (id : String)
deriving Repr, DecidableEq

/-- One event's effect on the pending-slot key set. -/
def stepPending (pending : List String) : BridgeEv → List String
  | .respFrame rid => (deliver pending rid).1
  | .deadline cid => pending.erase cid

/-- Fold an event trace over the pending-slot key set. -/
def runPending (pending : List String) (evs : List BridgeEv) : List String :=
  evs.foldl stepPending pending

/-- How many events of the trace deliver a response for `id` to a waiting
caller. -/
def deliveredCount (pending : List String) (evs : List BridgeEv) (id : String) : Nat :=
  match evs with
  | [] => 0
  | ev :: rest =>
    match ev with
    | .respFrame rid =>
      (if rid = id && (deliver pending rid).2 then 1 else 0)
        + deliveredCount (deliver pending rid).1 rest id
    | .deadline cid => deliveredCount (pending.erase cid) rest id

/-! ### Concrete test inputs -/

/-- Document children of `html.Parse` on `<input type="checkbox">` (the
parser wraps the input in `html > head, body`). -/
def bareCheckboxDoc : HForest :=
  HForest.ofList [HNode.elem "html" [] (HForest.ofList
    [HNode.elem "head" [] .nil,
     HNode.elem "body" [] (HForest.ofList
       [HNode.elem "input" [("type", "checkbox")] .nil])])]

/-- Document children of `html.Parse` on
`<a href="/start" id="start">Start here</a>`. -/
def anchorDoc : HForest :=
  HForest.ofList [HNode.elem "html" [] (HForest.ofList
    [HNode.elem "head" [] .nil,
     HNode.elem "body" [] (HForest.ofList
       [HNode.elem "a" [("href", "/start"), ("id", "start")] (HForest.ofList
          [HNode.text "Start here"])])])]

/-- A parsed document with a retained actionable element and visible text. -/
def c4Doc : HForest :=
  HForest.ofList [HNode.elem "a" [("id", "x")] (HForest.ofList [HNode.text "hi"])]

/-- A raw page whose html is present and yields an element, while the caller
also supplies non-blank text and a non-empty element list. -/
def c4Raw : RawPage :=
  { text := "caller", html := some c4Doc,
    elements := [{ tag := "button", text := "b", selector := "button" }] }

/-- A document whose only node is actionable but fails the retention rule. -/
def noisyButtonDoc : HForest :=
  HForest.ofList [HNode.elem "button" [] .nil]

/-! ## Theorems -/

/-! ### C2: routing failure fails fast -/

/-- C2: when no session resolves for a `SendCommand` call — the command's
`targetSessionId` is empty and the registry has no active session, or the
explicit target id is unknown — the call returns the "no active session"
error with an empty effect list: no slot is registered, no transport write is
attempted, and the call never reaches its blocking wait. -/
theorem C2_no_session_fails_fast (b : BridgeState) (cmd : Command)
    (writeOk : Bool) (reply : Option Response)
    (h : (cmd.sessionID = "" ∧ activeSession b = none) ∨
         (cmd.sessionID ≠ "" ∧ cmd.sessionID ∉ b.sessions)) :
    sendCommand b cmd writeOk reply = (.error errNoActiveSession, []) := by
  have hres : sessionByID b cmd.sessionID = none := by
    rcases h with ⟨h1, h2⟩ | ⟨h1, h2⟩ <;> simp [sessionByID, h1, h2]
  simp [sendCommand, hres]

/-- Witness for C2 at the post-`NewBridge` state (the repository's own
`TestSendCommandWithoutSession` scenario). -/
theorem C2_no_session_fails_fast_witness :
    ((Command.mk "1" "click" "" 0 none).sessionID = "" ∧ activeSession newBridge = none) ∧
    sendCommand newBridge (Command.mk "1" "click" "" 0 none) true none
      = (.error errNoActiveSession, []) :=
  ⟨⟨rfl, by decide⟩,
   C2_no_session_fails_fast newBridge (Command.mk "1" "click" "" 0 none) true none
     (Or.inl ⟨rfl, by decide⟩)⟩

/-! ### C10: the target router and the empty target -/

/-- C10 counterexample: on a context that already carries a target,
`WithTarget` with the empty target returns the context unchanged, but
`TargetFromContext` on the result still finds the earlier target — the claim
that it "finds no target" fails for such a context. -/
theorem C10_counterexample :
    TargetFromContext (WithTarget (WithTarget (none : Ctx) ⟨"s", 1⟩) ⟨"", 0⟩)
      = (⟨"s", 1⟩, true) := by
  decide

/-- C10 (amended): `WithTarget` returns the context unchanged when the
target's session id is empty and its tab id is 0, so the empty target is
never attached; on a context that carries no target, `TargetFromContext`
after such a call finds none — a tab with id 0 (and no session id) can never
be explicitly addressed through the target router. -/
theorem C10_empty_target_not_attached (ctx : Ctx) (t : Target)
    (hs : t.sessionID = "") (ht : t.tabID = 0) :
    WithTarget ctx t = ctx ∧
    (ctx = none → (TargetFromContext (WithTarget ctx t)).2 = false) := by
  refine ⟨by simp [WithTarget, hs, ht], ?_⟩
  intro hc
  subst hc
  simp [WithTarget, hs, ht, TargetFromContext]

/-- Witness for C10 at the empty context and the empty target. -/
theorem C10_empty_target_not_attached_witness :
    WithTarget (none : Ctx) ⟨"", 0⟩ = none ∧
    (TargetFromContext (WithTarget (none : Ctx) ⟨"", 0⟩)).2 = false :=
  ⟨(C10_empty_target_not_attached none ⟨"", 0⟩ rfl rfl).1,
   (C10_empty_target_not_attached none ⟨"", 0⟩ rfl rfl).2 rfl⟩

/-! ### C8: surfacing remote application failures -/

/-- C8 counterexample: `Client.Snapshot` checks `resp.OK` with
`errors.New(resp.Error)`, so for a failed response with an empty human string
and a present machine code it returns an *empty* error message and drops the
code — contradicting the claim that every browser operation synthesizes a
generic message and never returns an empty error. -/
theorem C8_counterexample :
    checkSnapshotResponse (Response.mk "1" false "" "COMMAND_FAILED" none) = .error "" := by
  rfl

/-- C8 (amended): every browser operation routed through
`sendActionWithData` — all of them except `Snapshot` — surfaces a failed
response as an error that is never empty, contains the human error string
and the machine code whenever they are present, and is the synthesized
generic message when both are empty; it never returns success. -/
theorem C8_action_failure_surfaced (resp : Response) (h : resp.ok = false) :
    ∃ msg, checkActionResponse resp = .error msg ∧ msg ≠ "" ∧
      (resp.error = "" → resp.errorCode = "" → msg = "browser action failed") ∧
      (resp.error ≠ "" → ∃ p s, msg.data = p ++ resp.error.data ++ s) ∧
      (resp.errorCode ≠ "" → ∃ p s, msg.data = p ++ resp.errorCode.data ++ s) := by
  by_cases he : resp.error = "" <;> by_cases hc : resp.errorCode = ""
  · refine ⟨"browser action failed", ?_, by decide, fun _ _ => rfl, ?_, ?_⟩
    · simp [checkActionResponse, h, he, hc]
    · intro hne; exact absurd he hne
    · intro hne; exact absurd hc hne
  · refine ⟨"browser action failed (" ++ resp.errorCode ++ ")", ?_, ?_, ?_, ?_, ?_⟩
    · simp [checkActionResponse, h, he, hc]
    · simp [String.ext_iff, String.data_append]
    · intro _ hc'; exact absurd hc' hc
    · intro hne; exact absurd he hne
    · intro _
      exact ⟨"browser action failed (".data, ")".data, by simp [String.data_append]⟩
  · refine ⟨resp.error, ?_, he, ?_, ?_, ?_⟩
    · simp [checkActionResponse, h, he, hc]
    · intro he'; exact absurd he' he
    · intro _; exact ⟨[], [], by simp⟩
    · intro hc'; exact absurd hc hc'
  · refine ⟨resp.error ++ " (" ++ resp.errorCode ++ ")", ?_, ?_, ?_, ?_, ?_⟩
    · simp [checkActionResponse, h, he, hc]
    · simp [String.ext_iff, String.data_append, he]
    · intro he'; exact absurd he' he
    · intro _
      exact ⟨[], (" (" ++ resp.errorCode ++ ")").data, by simp [String.data_append]⟩
    · intro _
      exact ⟨(resp.error ++ " (").data, ")".data, by simp [String.data_append]⟩

/-- Witness for C8 at a failed response carrying both a human string and a
machine code. -/
theorem C8_action_failure_surfaced_witness :
    (Response.mk "1" false "boom" "COMMAND_FAILED" none).ok = false ∧
    ∃ msg, checkActionResponse (Response.mk "1" false "boom" "COMMAND_FAILED" none)
        = .error msg ∧ msg ≠ "" ∧
      ((Response.mk "1" false "boom" "COMMAND_FAILED" none).error = "" →
        (Response.mk "1" false "boom" "COMMAND_FAILED" none).errorCode = "" →
        msg = "browser action failed") ∧
      ((Response.mk "1" false "boom" "COMMAND_FAILED" none).error ≠ "" →
        ∃ p s, msg.data = p ++ (Response.mk "1" false "boom" "COMMAND_FAILED" none).error.data ++ s) ∧
      ((Response.mk "1" false "boom" "COMMAND_FAILED" none).errorCode ≠ "" →
        ∃ p s, msg.data = p ++ (Response.mk "1" false "boom" "COMMAND_FAILED" none).errorCode.data ++ s) :=
  ⟨rfl, C8_action_failure_surfaced (Response.mk "1" false "boom" "COMMAND_FAILED" none) rfl⟩

/-! ### C7: JSON round-trip of the Command envelope -/

/-- C7 counterexample: a `Command` with a nil payload marshals its
`json.RawMessage` to JSON `null`, and unmarshalling copies the literal
`null` back into the raw message, which is then non-nil — so
`parse(serialize(c))` differs from `c` exactly when the payload is absent. -/
theorem C7_counterexample :
    parseCommand (serializeCommand (Command.mk "1" "click" "" 0 none))
      ≠ Command.mk "1" "click" "" 0 none := by
  intro hEq
  have hPayload := congrArg Command.payload hEq
  simp [parseCommand, serializeCommand, jLookup, List.find?] at hPayload

/-- C7 (amended): deserializing the JSON wire form of a `Command` yields the
command back field-for-field whenever the payload is non-nil (absent
`sessionId`/`tabId` round-trip through their zero values); with a nil
payload, all other fields still round-trip but the payload comes back as the
non-nil raw message `null`. -/
theorem C7_command_roundtrip (c : Command) :
    parseCommand (serializeCommand c)
      = { c with payload := some (c.payload.getD JVal.jnull) } := by
  obtain ⟨id, ty, sid, tab, pl⟩ := c
  by_cases hs : sid = "" <;> by_cases ht : tab = 0 <;>
    cases pl <;>
      simp [parseCommand, serializeCommand, jLookup, List.find?, jAsStr, jAsInt, hs, ht]

/-! ### C3: the active-session pointer -/

theorem pickNewActive_nil : pickNewActive [] = "" := rfl

theorem pickNewActive_mem_of_ne_nil (ss : List String) (h : ss ≠ []) :
    pickNewActive ss ∈ ss := by
  unfold pickNewActive
  rw [List.getLast?_eq_getLast_of_ne_nil h]
  exact List.getLast_mem h

theorem pickNewActive_mem (ss : List String) :
    pickNewActive ss = "" ∨ pickNewActive ss ∈ ss := by
  by_cases h : ss = []
  · subst h
    exact Or.inl pickNewActive_nil
  · exact Or.inr (pickNewActive_mem_of_ne_nil ss h)

theorem reachable_wf (b : BridgeState) (hb : Reachable b) :
    b.sessions.Nodup ∧ "" ∉ b.sessions ∧
      (b.activeID = "" ∨ b.activeID ∈ b.sessions) := by
  induction hb with
  | init => simp [newBridge]
  | conn hb hfresh hne ih =>
    obtain ⟨hnd, hemp, _⟩ := ih
    refine ⟨?_, ?_, Or.inr ?_⟩
    · simp [connect, List.nodup_append, hnd, hfresh]
    · simp [connect, hemp]
      exact fun h => hne h.symm
    · simp [connect]
  | disc id hb ih =>
    obtain ⟨hnd, hemp, hinv⟩ := ih
    rename_i b'
    have hnd' : (b'.sessions.erase id).Nodup := hnd.erase id
    have hemp' : "" ∉ b'.sessions.erase id := fun h => hemp (List.mem_of_mem_erase h)
    by_cases hact : b'.activeID = id
    · refine ⟨by simpa [disconnect, hact] using hnd', by simpa [disconnect, hact] using hemp', ?_⟩
      simpa [disconnect, hact] using pickNewActive_mem (b'.sessions.erase id)
    · refine ⟨by simpa [disconnect, hact] using hnd', by simpa [disconnect, hact] using hemp', ?_⟩
      rcases hinv with h | h
      · exact Or.inl (by simpa [disconnect, hact] using h)
      · exact Or.inr (by simpa [disconnect, hact] using h)

/-- C3: in every reachable bridge state the active-session pointer, when
non-empty, names a key of the session map; and when the active session
disconnects, the pointer is reassigned to some other currently-connected
session whenever any survive, and is cleared only when none remain — it
never stays equal to the disconnected session's id. -/
theorem C3_active_session_valid (b : BridgeState) (hb : Reachable b) :
    (b.activeID = "" ∨ b.activeID ∈ b.sessions) ∧
    (∀ id, id ∈ b.sessions → b.activeID = id →
      (disconnect b id).activeID ≠ id ∧
      ((disconnect b id).sessions ≠ [] →
        (disconnect b id).activeID ∈ (disconnect b id).sessions) ∧
      ((disconnect b id).sessions = [] → (disconnect b id).activeID = "")) := by
  obtain ⟨hnd, hemp, hinv⟩ := reachable_wf b hb
  refine ⟨hinv, ?_⟩
  intro id hmem hact
  have hidne : id ≠ "" := fun h => hemp (h ▸ hmem)
  have hdef : disconnect b id =
      { sessions := b.sessions.erase id,
        activeID := pickNewActive (b.sessions.erase id) } := by
    simp [disconnect, hact]
  rw [hdef]
  refine ⟨?_, ?_, ?_⟩
  · by_cases hrem : b.sessions.erase id = []
    · rw [hrem, pickNewActive_nil]
      exact fun he => hidne he.symm
    · exact ((hnd.mem_erase_iff).mp (pickNewActive_mem_of_ne_nil _ hrem)).1
  · intro hrem
    exact pickNewActive_mem_of_ne_nil _ hrem
  · intro hrem
    have hrem' : b.sessions.erase id = [] := hrem
    show pickNewActive (b.sessions.erase id) = ""
    rw [hrem', pickNewActive_nil]

/-- Witness for C3: sessions connect in order A then B (B active), B
disconnects; the pointer does not stay on B, is reassigned among the
surviving sessions (here to A), and is not cleared while A survives. -/
theorem C3_active_session_valid_witness :
    ((connect (connect newBridge "A") "B").activeID = "" ∨
      (connect (connect newBridge "A") "B").activeID
        ∈ (connect (connect newBridge "A") "B").sessions) ∧
    (disconnect (connect (connect newBridge "A") "B") "B").activeID ≠ "B" ∧
    ((disconnect (connect (connect newBridge "A") "B") "B").sessions ≠ [] →
      (disconnect (connect (connect newBridge "A") "B") "B").activeID
        ∈ (disconnect (connect (connect newBridge "A") "B") "B").sessions) ∧
    (disconnect (connect (connect newBridge "A") "B") "B").sessions ≠ [] ∧
    (disconnect (connect (connect newBridge "A") "B") "B").activeID = "A" := by
  have hr : Reachable (connect (connect newBridge "A") "B") :=
    Reachable.conn
      (Reachable.conn Reachable.init (by decide) (by decide))
      (by decide) (by decide)
  have h := C3_active_session_valid _ hr
  have h2 := h.2 "B" (by decide) (by decide)
  exact ⟨h.1, h2.1, h2.2.1, by decide, by decide⟩

/-! ### C1: correlation-slot lifecycle -/

theorem count_stepPending_le (p : List String) (ev : BridgeEv) (id : String) :
    (stepPending p ev).count id ≤ p.count id := by
  have herase : ∀ a, (p.erase a).count id ≤ p.count id := by
    intro a
    by_cases h : a = id
    · subst h; rw [List.count_erase_self]; omega
    · rw [List.count_erase_of_ne (fun hh => h hh.symm)]
  cases ev with
  | respFrame rid =>
    by_cases hm : rid ∈ p <;> simp [stepPending, deliver, hm]
    exact herase rid
  | deadline cid => exact herase cid

theorem deliveredCount_le (id : String) (evs : List BridgeEv) (p : List String) :
    deliveredCount p evs id + (runPending p evs).count id ≤ p.count id := by
  induction evs generalizing p with
  | nil => simp [deliveredCount, runPending]
  | cons ev rest ih =>
    cases ev with
    | respFrame rid =>
      by_cases hm : rid ∈ p
      · have hdel : deliver p rid = (p.erase rid, true) := by simp [deliver, hm]
        by_cases hid : rid = id
        · subst hid
          have hpos : 0 < p.count rid := List.count_pos_iff.mpr hm
          have h2 := ih (p.erase rid)
          rw [List.count_erase_self] at h2
          simp only [deliveredCount, runPending, List.foldl_cons, stepPending, hdel]
          simp only [runPending] at h2
          simp
          omega
        · have h2 := ih (p.erase rid)
          rw [List.count_erase_of_ne (fun hh => hid hh.symm)] at h2
          simp only [deliveredCount, runPending, List.foldl_cons, stepPending, hdel]
          simp only [runPending] at h2
          simp [hid]
          omega
      · have hdel : deliver p rid = (p, false) := by simp [deliver, hm]
        have h2 := ih p
        simp only [deliveredCount, runPending, List.foldl_cons, stepPending, hdel]
        simp only [runPending] at h2
        simp
        omega
    | deadline cid =>
      have h2 := ih (p.erase cid)
      have hle : (p.erase cid).count id ≤ p.count id := by
        by_cases h : cid = id
        · subst h; rw [List.count_erase_self]; omega
        · rw [List.count_erase_of_ne (fun hh => h hh.symm)]
      simp only [deliveredCount, runPending, List.foldl_cons, stepPending]
      simp only [runPending] at h2
      omega

theorem not_mem_runPending (id : String) (evs : List BridgeEv) (p : List String)
    (h : id ∉ p) : id ∉ runPending p evs := by
  induction evs generalizing p with
  | nil => simpa [runPending]
  | cons ev rest ih =>
    have hstep : id ∉ stepPending p ev := by
      cases ev with
      | respFrame rid =>
        by_cases hm : rid ∈ p <;> simp [stepPending, deliver, hm]
        · exact fun hmem => h (List.mem_of_mem_erase hmem)
        · exact h
      | deadline cid => exact fun hmem => h (List.mem_of_mem_erase hmem)
    exact ih _ hstep

theorem deadline_removes (id : String) (evs : List BridgeEv) (p : List String)
    (hcount : p.count id ≤ 1) (hmem : BridgeEv.deadline id ∈ evs) :
    id ∉ runPending p evs := by
  induction evs generalizing p with
  | nil => cases hmem
  | cons ev rest ih =>
    rcases List.mem_cons.mp hmem with hev | hev
    · subst hev
      have hrm : id ∉ p.erase id := by
        intro hmem'
        have hpos := List.count_pos_iff.mpr hmem'
        rw [List.count_erase_self] at hpos
        omega
      exact not_mem_runPending id rest (p.erase id) hrm
    · have hc' : (stepPending p ev).count id ≤ 1 :=
        le_trans (count_stepPending_le p ev id) hcount
      exact ih _ hc' hev

/-- C1: for a command id holding at most one slot in the correlation table
(`SendCommand` registers fresh uuids), any interleaving of response frames
(`Bridge.deliver`) and caller deadlines (the `ctx.Done()` branch) delivers
the slot to the waiting caller at most once; after the caller's deadline
event the table no longer contains the id; and once the id is gone, a late
`deliver` finds no slot and drops the response without changing the table. -/
theorem C1_slot_single_use (p : List String) (id : String) (evs : List BridgeEv)
    (hcount : p.count id ≤ 1) :
    deliveredCount p evs id ≤ 1 ∧
    (BridgeEv.deadline id ∈ evs → id ∉ runPending p evs) ∧
    (id ∉ runPending p evs → deliver (runPending p evs) id = (runPending p evs, false)) := by
  refine ⟨?_, fun h => deadline_removes id evs p hcount h,
    fun h => by simp [deliver, h]⟩
  have h := deliveredCount_le id evs p
  omega

/-- Witness for C1: one registered slot, a deadline followed by a late
response frame for the same id. -/
theorem C1_slot_single_use_witness :
    (["x"].count "x" ≤ 1) ∧
    deliveredCount ["x"] [.deadline "x", .respFrame "x"] "x" ≤ 1 ∧
    "x" ∉ runPending ["x"] [.deadline "x", .respFrame "x"] := by
  refine ⟨by decide, ?_, ?_⟩
  · exact (C1_slot_single_use ["x"] "x" [.deadline "x", .respFrame "x"] (by decide)).1
  · exact (C1_slot_single_use ["x"] "x" [.deadline "x", .respFrame "x"] (by decide)).2.1
      (by decide)

/-! ### C9: action mapping on concrete pages -/

/-- C9 counterexample: a page containing exactly `<input type="checkbox">`
has one actionable node, but the bare checkbox has empty text, aria-label,
name and id, so the retention rule drops it: `Reduce` yields no element and
no action at all — in particular no Action with verb "toggle". -/
theorem C9_counterexample :
    countActionableF bareCheckboxDoc = 1 ∧
    (reduce 4000 80 { html := some bareCheckboxDoc }).elements = [] ∧
    (reduce 4000 80 { html := some bareCheckboxDoc }).actions = [] := by
  decide

/-- C9 (amended): a checkbox that passes the retention rule (here
`<input type="checkbox" name="opt">`) yields an Action with verb "toggle";
reducing a page containing `<a href="/start" id="start">Start here</a>`
yields the claimed Element (selector `#start`, text `Start here`, href
`/start`) and Action (open/`#start`/`Start here`/`href=/start`); and the
`#id` selector wins over any class-based selector. -/
theorem C9_action_mapping :
    ((reduce 4000 80
        { html := some (HForest.ofList [HNode.elem "html" [] (HForest.ofList
            [HNode.elem "head" [] .nil,
             HNode.elem "body" [] (HForest.ofList
               [HNode.elem "input" [("type", "checkbox"), ("name", "opt")] .nil])])]) }).actions.map
        (fun a => a.verb) = ["toggle"]) ∧
    (reduce 4000 80 { html := some anchorDoc }).elements.map
        (fun el => (el.selector, el.text, el.href)) = [("#start", "Start here", "/start")] ∧
    (reduce 4000 80 { html := some anchorDoc }).actions =
      [{ verb := "open", selector := "#start", label := "Start here", hint := "href=/start" }] ∧
    selectorFromNode "a" [("id", "x"), ("class", "y")] .nil 0 ["a"] = "#x" := by
  decide

/-! ### C4: which source feeds the snapshot -/

/-- C4 counterexample: the html is present and yields an element, yet
`Reduce` keeps the caller-supplied text and elements — the parsed text and
parsed elements are discarded, contradicting the claim that the caller data
is used verbatim *only* when html is absent or yields zero elements. -/
theorem C4_counterexample :
    (parseHTMLF c4Doc 80).2 ≠ [] ∧
    (reduce 4000 80 c4Raw).text = "caller" ∧
    (reduce 4000 80 c4Raw).text ≠ takeS (compactWhitespace (parseHTMLF c4Doc 80).1) 4000 ∧
    (reduce 4000 80 c4Raw).elements = c4Raw.elements ∧
    (reduce 4000 80 c4Raw).elements ≠ (parseHTMLF c4Doc 80).2.take 80 := by
  decide

/-- C4 (amended): `Reduce` keeps the caller text whenever it is non-blank
(and always when html is absent), and uses the parsed page text only when
the caller text is blank and html is present; it keeps the caller elements
whenever they are supplied non-empty, html is absent, or the parse yields
zero elements, and uses the parsed elements only when the caller supplies
none and the parse yields some.  Text is always whitespace-compacted and
truncated to `maxText`; elements are truncated to `maxElements`. -/
theorem C4_reduce_source_selection (raw : RawPage) (m k : Nat) :
    (trimS raw.text ≠ "" →
      (reduce m k raw).text = takeS (compactWhitespace (trimS raw.text)) m) ∧
    (∀ doc, raw.html = some doc → trimS raw.text = "" →
      (reduce m k raw).text = takeS (compactWhitespace (parseHTMLF doc k).1) m) ∧
    (raw.html = none → (reduce m k raw).elements = raw.elements.take k) ∧
    (raw.elements ≠ [] → (reduce m k raw).elements = raw.elements.take k) ∧
    (∀ doc, raw.html = some doc → (parseHTMLF doc k).2 = [] →
      (reduce m k raw).elements = raw.elements.take k) ∧
    (∀ doc, raw.html = some doc → raw.elements = [] → (parseHTMLF doc k).2 ≠ [] →
      (reduce m k raw).elements = (parseHTMLF doc k).2.take k) := by
  cases hh : raw.html with
  | none =>
    refine ⟨fun ht => ?_, fun doc hdoc => by simp [hh] at hdoc, fun _ => ?_,
      fun he => ?_, fun doc hdoc => by simp [hh] at hdoc,
      fun doc hdoc => by simp [hh] at hdoc⟩
    · simp [reduce, hh]
    · simp [reduce, hh]
    · simp [reduce, hh]
  | some doc =>
    refine ⟨fun ht => ?_, fun doc' hdoc ht => ?_, fun hn => by simp [hh] at hn,
      fun he => ?_, fun doc' hdoc hp => ?_, fun doc' hdoc he hp => ?_⟩
    · simp [reduce, hh, ht]
    · have hd : doc' = doc := (Option.some.inj hdoc).symm
      subst hd
      simp [reduce, hh, ht]
    · simp [reduce, hh, he]
    · have hd : doc' = doc := (Option.some.inj hdoc).symm
      subst hd
      by_cases he : raw.elements = [] <;> simp [reduce, hh, he, hp]
    · have hd : doc' = doc := (Option.some.inj hdoc).symm
      subst hd
      simp [reduce, hh, he, hp]

/-- Witness for C4 at a raw page with non-blank caller text. -/
theorem C4_reduce_source_selection_witness :
    trimS ("hello" : String) ≠ "" ∧
    (reduce 10 5 ({ text := "hello" } : RawPage)).text
      = takeS (compactWhitespace (trimS "hello")) 10 :=
  ⟨by decide, (C4_reduce_source_selection ({ text := "hello" } : RawPage) 10 5).1 (by decide)⟩

/-! ### C5: the element bound -/

theorem retainedEl_independent (tag : String) (attrs : List (String × String))
    (cs sibs : HForest) (idx : Nat) (path : List String) :
    retainedEl (elementFromNode tag attrs cs sibs idx path)
      = retainedEl (elementFromNode tag attrs cs .nil 0 []) := rfl

mutual
theorem walkNode_length (maxE : Nat) (n : HNode) (sibs : HForest) (idx : Nat)
    (path : List String) (st : List Element × List Char)
    (h0 : 0 < maxE) (h : st.1.length < maxE) :
    (walkNode maxE n sibs idx path st).1.length
      = min (st.1.length + countRetainedN n) maxE := by
  cases n with
  | text s =>
    simp only [walkNode, countRetainedN]
    omega
  | elem tag attrs cs =>
    by_cases hA : isActionable (lowerS tag) attrs
    · by_cases hR : retainedEl
        (elementFromNode (lowerS tag) attrs cs sibs idx (path ++ [lowerS tag])) = true
      · have hR' : retainedEl (elementFromNode (lowerS tag) attrs cs .nil 0 []) = true := by
          rw [← retainedEl_independent (lowerS tag) attrs cs sibs idx (path ++ [lowerS tag])]
          exact hR
        have hk := walkKids_length maxE cs cs 0 (path ++ [lowerS tag])
          (st.1 ++ [elementFromNode (lowerS tag) attrs cs sibs idx (path ++ [lowerS tag])], st.2)
          h0 (by simp; omega)
        simp only [walkNode, hA, hR, if_true, countRetainedN, hR', Bool.and_self, and_true]
        rw [hk]
        simp only [List.length_append, List.length_cons, List.length_nil]
        simp [hA]
        omega
      · have hR' : retainedEl (elementFromNode (lowerS tag) attrs cs .nil 0 []) ≠ true := by
          rw [← retainedEl_independent (lowerS tag) attrs cs sibs idx (path ++ [lowerS tag])]
          exact hR
        have hk := walkKids_length maxE cs cs 0 (path ++ [lowerS tag]) st h0 (le_of_lt h)
        simp [walkNode, hA, hR, countRetainedN, hR']
        rw [hk]
    · have hk := walkKids_length maxE cs cs 0 (path ++ [lowerS tag]) st h0 (le_of_lt h)
      simp [walkNode, hA, countRetainedN]
      rw [hk]
termination_by sizeOf n

theorem walkKids_length (maxE : Nat) (rem sibs : HForest) (idx : Nat)
    (path : List String) (st : List Element × List Char)
    (h0 : 0 < maxE) (h : st.1.length ≤ maxE) :
    (walkKids maxE rem sibs idx path st).1.length
      = min (st.1.length + countRetainedF rem) maxE := by
  cases rem with
  | nil =>
    simp only [walkKids, countRetainedF]
    omega
  | cons c cs =>
    by_cases hstop : maxE ≤ st.1.length
    · have heq : st.1.length = maxE := le_antisymm h hstop
      have hcond : (0 < maxE && decide (maxE ≤ st.1.length)) = true := by
        simp [h0, hstop]
      simp only [walkKids, hcond, if_true]
      omega
    · have hlt : st.1.length < maxE := lt_of_not_ge hstop
      have hcond : (0 < maxE && decide (maxE ≤ st.1.length)) = false := by
        simp [hstop]
      have hn := walkNode_length maxE c sibs idx path st h0 hlt
      have hk := walkKids_length maxE cs sibs (idx + 1) path
        (walkNode maxE c sibs idx path st) h0 (by rw [hn]; omega)
      simp only [walkKids, hcond, Bool.false_eq_true, if_false, countRetainedF]
      rw [hk, hn]
      omega
termination_by sizeOf rem
end

theorem parseHTMLF_length (doc : HForest) (k : Nat) (hk : 0 < k) :
    (parseHTMLF doc k).2.length = min (countRetainedF doc) k := by
  have h := walkKids_length k doc doc 0 [] ([], []) hk (by simp)
  simpa [parseHTMLF] using h

/-- C5 counterexample: a page whose html contains one actionable element
(a bare `<button>`) that fails the retention rule: with `maxElements = 1` the
raw input contains at least one actionable element, but `Reduce` returns zero
elements — the claimed equality fails. -/
theorem C5_counterexample :
    countActionableF noisyButtonDoc = 1 ∧
    (reduce 4000 1 { html := some noisyButtonDoc }).elements.length = 0 := by
  decide

/-- C5 (amended): for every raw input and positive bound `k`, the element
list of `Reduce` with `maxElements = k` has length at most `k`; equality
holds whenever the caller supplies at least `k` elements directly, or
supplies none while the html parse tree contains at least `k` actionable
elements that pass the retention rule. -/
theorem C5_element_bound (raw : RawPage) (k m : Nat) (hk : 0 < k) :
    (reduce m k raw).elements.length ≤ k ∧
    (k ≤ raw.elements.length → (reduce m k raw).elements.length = k) ∧
    (∀ doc, raw.html = some doc → raw.elements = [] → k ≤ countRetainedF doc →
      (reduce m k raw).elements.length = k) := by
  refine ⟨?_, ?_, ?_⟩
  · have hshape : ∃ els : List Element, (reduce m k raw).elements = els.take k := by
      cases hh : raw.html with
      | none => exact ⟨raw.elements, by simp [reduce, hh]⟩
      | some doc =>
        by_cases he : raw.elements = []
        · by_cases hp : (parseHTMLF doc k).2 = []
          · exact ⟨raw.elements, by simp [reduce, hh, he, hp]⟩
          · exact ⟨(parseHTMLF doc k).2, by simp [reduce, hh, he, hp]⟩
        · exact ⟨raw.elements, by simp [reduce, hh, he]⟩
    obtain ⟨els, heq⟩ := hshape
    rw [heq, List.length_take]
    omega
  · intro hlen
    have hne : raw.elements ≠ [] := by
      intro h
      rw [h] at hlen
      simp at hlen
      omega
    have heq : (reduce m k raw).elements = raw.elements.take k := by
      cases hh : raw.html with
      | none => simp [reduce, hh]
      | some doc => simp [reduce, hh, hne]
    rw [heq, List.length_take]
    omega
  · intro doc hdoc he hcnt
    have hplen : (parseHTMLF doc k).2.length = k := by
      rw [parseHTMLF_length doc k hk]
      omega
    have hpne : (parseHTMLF doc k).2 ≠ [] := by
      intro h
      rw [h] at hplen
      simp at hplen
      omega
    have heq : (reduce m k raw).elements = (parseHTMLF doc k).2.take k := by
      simp [reduce, hdoc, he, hpne]
    rw [heq, List.length_take, hplen]
    omega

/-- Witness for C5 at a raw page supplying two elements with bound 1. -/
theorem C5_element_bound_witness :
    (0 : Nat) < 1 ∧
    (reduce 4000 1 ({ elements := [{ tag := "button", selector := "b" },
      { tag := "a", selector := "a" }] } : RawPage)).elements.length ≤ 1 ∧
    (reduce 4000 1 ({ elements := [{ tag := "button", selector := "b" },
      { tag := "a", selector := "a" }] } : RawPage)).elements.length = 1 := by
  have h := C5_element_bound ({ elements := [{ tag := "button", selector := "b" },
    { tag := "a", selector := "a" }] } : RawPage) 1 4000 (by decide)
  exact ⟨by decide, h.1, h.2.1 (by decide)⟩

/-! ### C6: the text bound and whitespace compaction -/

theorem noDoubleSpace_cons_of_ne (a : Char) (l : List Char) (ha : a ≠ ' ') :
    noDoubleSpace (a :: l) = noDoubleSpace l := by
  cases l with
  | nil => simp [noDoubleSpace]
  | cons b t => simp [noDoubleSpace, ha]

theorem wordsAux_spec (cs : List Char) :
    ∀ acc, (∀ c ∈ acc, goIsSpace c = false) →
      ∀ w ∈ wordsAux cs acc, w ≠ [] ∧ ∀ c ∈ w, goIsSpace c = false := by
  induction cs with
  | nil =>
    intro acc hacc w hw
    by_cases h : acc = []
    · simp [wordsAux, h] at hw
    · simp [wordsAux, h] at hw
      subst hw
      refine ⟨by simpa using h, ?_⟩
      intro c hc
      exact hacc c (List.mem_reverse.mp hc)
  | cons c cs ih =>
    intro acc hacc w hw
    by_cases hs : goIsSpace c
    · by_cases h : acc = []
      · rw [show wordsAux (c :: cs) acc = wordsAux cs [] by simp [wordsAux, hs, h]] at hw
        exact ih [] (by simp) w hw
      · rw [show wordsAux (c :: cs) acc = acc.reverse :: wordsAux cs [] by
          simp [wordsAux, hs, h]] at hw
        rcases List.mem_cons.mp hw with hw | hw
        · subst hw
          exact ⟨by simpa using h, fun c hc => hacc c (List.mem_reverse.mp hc)⟩
        · exact ih [] (by simp) w hw
    · rw [show wordsAux (c :: cs) acc = wordsAux cs (c :: acc) by simp [wordsAux, hs]] at hw
      refine ih (c :: acc) ?_ w hw
      intro d hd
      rcases List.mem_cons.mp hd with hd | hd
      · subst hd
        exact Bool.not_eq_true _ ▸ (by simpa using hs)
      · exact hacc d hd

theorem nds_append_word (w rest : List Char)
    (hw : ∀ c ∈ w, goIsSpace c = false) (hrest : noDoubleSpace rest = true) :
    noDoubleSpace (w ++ rest) = true := by
  induction w with
  | nil => simpa
  | cons a w ih =>
    have ha : a ≠ ' ' := by
      intro hsp
      subst hsp
      have := hw ' ' (by simp)
      simp [goIsSpace] at this
    rw [List.cons_append, noDoubleSpace_cons_of_ne a (w ++ rest) ha]
    exact ih (fun c hc => hw c (by simp [hc]))

theorem joinWords_nds (ws : List (List Char))
    (h : ∀ w ∈ ws, w ≠ [] ∧ ∀ c ∈ w, goIsSpace c = false) :
    noDoubleSpace (joinWords ws) = true ∧
      (∀ c, (joinWords ws).head? = some c → goIsSpace c = false) := by
  induction ws with
  | nil => simp [joinWords, noDoubleSpace]
  | cons w ws ih =>
    obtain ⟨hw_ne, hw_sf⟩ := h w (by simp)
    have ih' := ih (fun w' hw' => h w' (by simp [hw']))
    have hhead : ∀ c, (w ++ ' ' :: joinWords ws).head? = some c → goIsSpace c = false := by
      intro c hc
      cases w with
      | nil => exact absurd rfl hw_ne
      | cons a w' =>
        have hga : goIsSpace a = false := hw_sf a (by simp)
        simp at hc
        simp_all
    cases ws with
    | nil =>
      refine ⟨?_, ?_⟩
      · have := nds_append_word w [] hw_sf (by simp [noDoubleSpace])
        simpa [joinWords] using this
      · intro c hc
        cases w with
        | nil => exact absurd rfl hw_ne
        | cons a w' =>
          have hga : goIsSpace a = false := hw_sf a (by simp)
          simp [joinWords] at hc
          simp_all
    | cons w' ws' =>
      have hjoin : joinWords (w :: w' :: ws') = w ++ ' ' :: joinWords (w' :: ws') := rfl
      refine ⟨?_, by rw [hjoin]; exact hhead⟩
      rw [hjoin]
      apply nds_append_word w _ hw_sf
      cases hj : joinWords (w' :: ws') with
      | nil => simp [noDoubleSpace]
      | cons b t =>
        have hb : goIsSpace b = false := ih'.2 b (by rw [hj]; rfl)
        have hbne : b ≠ ' ' := by
          intro hsp
          subst hsp
          simp [goIsSpace] at hb
        have : noDoubleSpace (b :: t) = true := hj ▸ ih'.1
        simpa [noDoubleSpace, hbne] using this

theorem nds_take (l : List Char) :
    ∀ n, noDoubleSpace l = true → noDoubleSpace (l.take n) = true := by
  induction l with
  | nil => simp
  | cons a l ih =>
    intro n h
    cases n with
    | zero => simp [noDoubleSpace]
    | succ n =>
      rw [List.take_succ_cons]
      cases l with
      | nil => simp [noDoubleSpace]
      | cons b l' =>
        cases n with
        | zero => simp [noDoubleSpace]
        | succ n' =>
          rw [List.take_succ_cons]
          simp only [noDoubleSpace, Bool.and_eq_true] at h ⊢
          refine ⟨h.1, ?_⟩
          have := ih (n' + 1) h.2
          rwa [List.take_succ_cons] at this

theorem compactWhitespace_nds (s : String) :
    noDoubleSpace (compactWhitespace s).data = true := by
  have hws := wordsAux_spec s.data [] (by simp)
  exact (joinWords_nds (wordsL s.data) hws).1

theorem reduce_text_shape (raw : RawPage) (m k : Nat) :
    ∃ t : String, (reduce m k raw).text = takeS (compactWhitespace t) m := by
  cases hh : raw.html with
  | none => exact ⟨trimS raw.text, by simp [reduce, hh]⟩
  | some doc =>
    by_cases ht : trimS raw.text = ""
    · exact ⟨(parseHTMLF doc k).1, by simp [reduce, hh, ht]⟩
    · exact ⟨trimS raw.text, by simp [reduce, hh, ht]⟩

/-- C6: for every raw input, every positive `maxText = m` and any
`maxElements`, the text of the produced snapshot has length at most `m` and
contains no two consecutive space characters (whitespace runs are collapsed
before truncation). -/
theorem C6_text_bound (raw : RawPage) (m k : Nat) (hm : 0 < m) :
    (reduce m k raw).text.length ≤ m ∧
    noDoubleSpace (reduce m k raw).text.data = true := by
  obtain ⟨t, hteq⟩ := reduce_text_shape raw m k
  rw [hteq]
  constructor
  · show ((compactWhitespace t).data.take m).length ≤ m
    rw [List.length_take]
    omega
  · show noDoubleSpace ((compactWhitespace t).data.take m) = true
    exact nds_take _ m (compactWhitespace_nds t)

/-- Witness for C6 at a raw page with a double-spaced caller text and
`maxText = 3`. -/
theorem C6_text_bound_witness :
    (0 : Nat) < 3 ∧
    (reduce 3 5 ({ text := "a  b" } : RawPage)).text.length ≤ 3 ∧
    noDoubleSpace (reduce 3 5 ({ text := "a  b" } : RawPage)).text.data = true := by
  have h := C6_text_bound ({ text := "a  b" } : RawPage) 3 5 (by decide)
  exact ⟨by decide, h.1, h.2⟩

end SurfingBros
